import Mathlib

/-!
Shallow embedding of the CT-HMM EM learner in `ct_hmm.py`.

Modelling conventions:
* numpy float arrays over exact values are modelled as functions `Fin n → ℚ`
  (vectors) and `Fin n → Fin n → ℚ` (matrices);
* the numerical-library primitives the engine consumes (`scipy.linalg.expm`,
  `np.linalg.eig`, scalar `exp`/`log`, `np.random.rand`) are out of scope for
  the engine itself, so their values enter the embedding as explicit oracle
  parameters (fields of `Model`, or function arguments); the engine's own
  arithmetic and control flow is embedded from the source;
* IEEE-754 special values produced by the engine's own divisions and logs are
  modelled by the type `PyF` (`nan`, `±inf`, finite);
* Python exceptions are modelled with `Except PyErr`; the interactive
  `import pdb; pdb.set_trace()` breakpoints of the source are modelled by a
  boolean `paused` flag on the result (the source continues after the pause),
  never as a raised error, mirroring the source;
* Python values that start as the integer `0` and may be overwritten by numpy
  arrays (`Nij = 0`, `TauI = 0` in `EM_step`) are modelled by the sum types
  `IntOrMat` / `IntOrVec`; subscripting the integer variant is a `TypeError`.
-/

namespace CtHmm

/-- Python exceptions that the embedded code can raise.  `unknownStructError`
is the `Exception('Unknown method, must be fc, forward_step, or forward_any')`
of `create_Q_struct` (the spec's StructuralConfigError); `nameError` is the
`NameError` raised when an unbound variable is evaluated; `typeError` is the
`TypeError` raised when an `int` is subscripted; `indexError` models `ls_mu[0]`
on an empty list. -/
inductive PyErr where
  | unknownStructError : PyErr
  | nameError : PyErr
  | typeError : PyErr
  | indexError : PyErr
deriving DecidableEq

/-- Square matrix of exact values, indexed like the numpy arrays of the source. -/
abbrev Mat (n : ℕ) := Fin n → Fin n → ℚ

/-- Vector of exact values. -/
abbrev Vec (n : ℕ) := Fin n → ℚ

/-- One consecutive-observation step of a patient, as consumed by the
sufficient-statistics methods: the time gap
`t = observation_times[i] - observation_times[i-1]`, the forward vector
`Alpha[i-1]`, the backward vector `Beta[i]`, and the emission likelihoods
`b = patient.b_s(O[i])`.  Both statistics methods read exactly these values
(produced by the same forward/backward recursions) and feed them to
`get_zeta`. -/
structure Step (n : ℕ) where
  gap : ℚ
  alpha : Vec n
  beta : Vec n
  b : Vec n

/-- The learner state read by the statistics engine (`self` in the source),
together with the numerical-library oracles it consults:
`Pt t` is the cached `expm_Q_t[t] = expm(Q*t)`; `eig` is the eigenvalue part
of `np.linalg.eig` (the source also uses the cached right eigenvectors `U` and
their inverse `V` from `set_eigendecomposition`); `expf` is scalar `exp`;
`expmA t i j` is the upper-right `n×n` block (rows `0..n-1`, columns
`n..2n-1`) of `expm(A*t)` for the `2n×2n` matrix `A` with `Q` on both diagonal
blocks and a single unit entry at `(i, n+j)`, as assembled in
`Expm_TauI_Nij_all_times`. -/
structure Model (n : ℕ) where
  Q : Mat n
  Qstruct : Mat n
  U : Mat n
  V : Mat n
  Pt : ℚ → Mat n
  eig : Mat n → Vec n
  expf : ℚ → ℚ
  expmA : ℚ → Fin n → Fin n → Mat n

variable {n : ℕ}

/-- The scalar `likelihood = np.dot(alpha, np.dot(self.expm_Q_t[t], beta*b))`
computed inside `get_zeta` (ct_hmm.py line 431). -/
def zeta_denom (M : Model n) (g : ℚ) (alpha beta b : Vec n) : ℚ :=
  ∑ k, alpha k * (∑ l, M.Pt g k l * (beta l * b l))

/-- Embedding of `CT_HMM_LEARNER.get_zeta` (ct_hmm.py lines 419-432):
`self.expm_Q_t[t] * np.outer(alpha, np.transpose(b*beta)) / likelihood`. -/
def get_zeta (M : Model n) (g : ℚ) (alpha beta b : Vec n) : Mat n :=
  fun k l => M.Pt g k l * (alpha k * (b l * beta l)) / zeta_denom M g alpha beta b

/-- The zeta matrix of one step, as both statistics methods compute it. -/
def stepZeta (M : Model n) (st : Step n) : Mat n :=
  get_zeta M st.gap st.alpha st.beta st.b

/-- Embedding of `CT_HMM_LEARNER.calculate_Psi_eigen` (ct_hmm.py lines
292-302).  The source recomputes `D, U = np.linalg.eig(self.Q)` locally and
compares eigenvalues with the exact `==` of line 298; no tolerance is
applied. -/
def calculate_Psi_eigen (M : Model n) (t : ℚ) : Mat n :=
  fun p q =>
    if M.eig M.Q p = M.eig M.Q q then t * M.expf (t * M.eig M.Q p)
    else (M.expf (t * M.eig M.Q p) - M.expf (t * M.eig M.Q q)) /
      (M.eig M.Q p - M.eig M.Q q)

/-- The matrix `B = np.dot(np.dot(np.transpose(self.U), F), np.transpose(self.V))`
with `F = Zeta_matrix/self.expm_Q_t[t]`, shared by
`Eigen_Nij_time_interval` (line 265) and `Eigen_TauI_time_interval`
(line 284). -/
def Bmat (M : Model n) (g : ℚ) (Zeta : Mat n) : Mat n :=
  fun p q => ∑ k, ∑ l, M.U k p * (Zeta k l / M.Pt g k l) * M.V q l

/-- Embedding of `CT_HMM_LEARNER.Eigen_Nij_time_interval` (ct_hmm.py lines
254-272): `Aij = np.multiply(np.outer(self.V[:,i], self.U[j,:]), Psi_eigen)`,
`Nij_mat[i,j] = self.Q[i,j] * np.sum(np.multiply(Aij, B))` for `i ≠ j`; the
diagonal is never written and stays at its `np.zeros` value. -/
def Eigen_Nij_time_interval (M : Model n) (Zeta : Mat n) (g : ℚ) (Psi : Mat n) : Mat n :=
  fun i j =>
    if i = j then 0
    else M.Q i j * ∑ p, ∑ q, (M.V p i * M.U j q * Psi p q) * Bmat M g Zeta p q

/-- Embedding of `CT_HMM_LEARNER.Eigen_TauI_time_interval` (ct_hmm.py lines
279-290): `Ai = np.multiply(np.outer(self.V[:,i], self.U[i,:]), Psi_eigen)`,
`TauI[i] = np.sum(np.multiply(Ai, B))`. -/
def Eigen_TauI_time_interval (M : Model n) (Zeta : Mat n) (g : ℚ) (Psi : Mat n) : Vec n :=
  fun i => ∑ p, ∑ q, (M.V p i * M.U i q * Psi p q) * Bmat M g Zeta p q

/-- Embedding of `CT_HMM_LEARNER.Eigen_Nij_all_times` (ct_hmm.py lines
364-390) in its `fast_eigen=True` path, which is the path `EM_step` uses for
`Nij` when `fast_eigen=True` (and for `TauI` always): per consecutive
observation it computes the zeta matrix and `Psi` and accumulates the
per-interval matrix.  The forward/backward vectors and emission likelihoods
recomputed by the source at lines 371-375 are carried in each `Step`. -/
def Eigen_Nij_all_times (M : Model n) (steps : List (Step n)) : Mat n :=
  fun i j =>
    (steps.map (fun st =>
      Eigen_Nij_time_interval M (stepZeta M st) st.gap (calculate_Psi_eigen M st.gap) i j)).sum

/-- Embedding of `CT_HMM_LEARNER.Eigen_TauI_all_times` (ct_hmm.py lines
392-417) in its `fast_eigen=True` path (the only path `EM_step` ever invokes
for `TauI`, since line 182 passes no `fast_eigen` argument). -/
def Eigen_TauI_all_times (M : Model n) (steps : List (Step n)) : Vec n :=
  fun i =>
    (steps.map (fun st =>
      Eigen_TauI_time_interval M (stepZeta M st) st.gap (calculate_Psi_eigen M st.gap) i)).sum

/-- The inner accumulation `temp_sum` of `Expm_TauI_Nij_all_times`
(ct_hmm.py lines 328-332 and 351-355): over all `(k,l)` with
`Pt_kl[k,l] != 0`, add `Zeta_matrix[k,l] * expm_A[k, l+num_state] / Pt_kl[k,l]`,
where the unit entry of `A` sits at `(a, n+b)`. -/
def tempSum (M : Model n) (st : Step n) (a b : Fin n) : ℚ :=
  ∑ k, ∑ l,
    if M.Pt st.gap k l ≠ 0 then
      stepZeta M st k l * M.expmA st.gap a b k l / M.Pt st.gap k l
    else 0

/-- The `TauI` output of `Expm_TauI_Nij_all_times` (ct_hmm.py lines 320-334):
for each state `i` the unit entry is placed at `(i, n+i)` and `temp_sum` is
accumulated over all observation gaps. -/
def Expm_TauI_all (M : Model n) (steps : List (Step n)) : Vec n :=
  fun i => (steps.map (fun st => tempSum M st i i)).sum

/-- The `Nij` output of `Expm_TauI_Nij_all_times`: the first loop (lines
320-338) adds `ni = temp_sum * (-self.Q[i,i])` to the diagonal entry `(i,i)`;
the second loop (lines 341-360) adds `nij = temp_sum * self.Q[i,j]` at every
`(i,j)` with `self.Q_struct[i,j] == 1`. -/
def Expm_Nij_all (M : Model n) (steps : List (Step n)) : Mat n :=
  fun i j =>
    (if i = j then (steps.map (fun st => tempSum M st i i * (-(M.Q i i)))).sum else 0)
    + (if M.Qstruct i j = 1 then (steps.map (fun st => tempSum M st i j * M.Q i j)).sum else 0)

/-- Embedding of `CT_HMM_LEARNER.Expm_TauI_Nij_all_times` (ct_hmm.py lines
304-362), returning the pair `(TauI, Nij_mat)`. -/
def Expm_TauI_Nij_all_times (M : Model n) (steps : List (Step n)) : Vec n × Mat n :=
  (Expm_TauI_all M steps, Expm_Nij_all M steps)

/-- IEEE-754-style value domain for the places where the engine's own
arithmetic can produce `nan`/`inf`: division by zero in the M-step and
log/exp in the backward recursion.  Finite values stay exact. -/
inductive PyF where
  | nan : PyF
  | pinf : PyF
  | ninf : PyF
  | num : ℚ → PyF
deriving DecidableEq

/-- IEEE addition on `PyF` (nan propagates, `inf + (-inf) = nan`). -/
def padd : PyF → PyF → PyF
  | PyF.nan, _ => PyF.nan
  | _, PyF.nan => PyF.nan
  | PyF.pinf, PyF.ninf => PyF.nan
  | PyF.ninf, PyF.pinf => PyF.nan
  | PyF.pinf, _ => PyF.pinf
  | _, PyF.pinf => PyF.pinf
  | PyF.ninf, _ => PyF.ninf
  | _, PyF.ninf => PyF.ninf
  | PyF.num a, PyF.num b => PyF.num (a + b)

/-- IEEE negation on `PyF`. -/
def pneg : PyF → PyF
  | PyF.nan => PyF.nan
  | PyF.pinf => PyF.ninf
  | PyF.ninf => PyF.pinf
  | PyF.num a => PyF.num (-a)

/-- Sum of a list of `PyF` values, as `np.sum` over a float row. -/
def psum (l : List PyF) : PyF := l.foldl padd (PyF.num 0)

/-- numpy float division of two finite values: `0/0 = nan`, `x/0 = ±inf`. -/
def pdivQ (a b : ℚ) : PyF :=
  if b = 0 then (if a = 0 then PyF.nan else if 0 < a then PyF.pinf else PyF.ninf)
  else PyF.num (a / b)

/-- IEEE division on `PyF`. -/
def pdiv : PyF → PyF → PyF
  | PyF.nan, _ => PyF.nan
  | _, PyF.nan => PyF.nan
  | PyF.pinf, PyF.pinf => PyF.nan
  | PyF.pinf, PyF.ninf => PyF.nan
  | PyF.ninf, PyF.pinf => PyF.nan
  | PyF.ninf, PyF.ninf => PyF.nan
  | PyF.pinf, PyF.num b => if b < 0 then PyF.ninf else PyF.pinf
  | PyF.ninf, PyF.num b => if b < 0 then PyF.pinf else PyF.ninf
  | PyF.num _, PyF.pinf => PyF.num 0
  | PyF.num _, PyF.ninf => PyF.num 0
  | PyF.num a, PyF.num b => pdivQ a b

/-- The `np.isnan` test. -/
def pisnan : PyF → Bool
  | PyF.nan => true
  | _ => false

/-- IEEE `<` on `PyF`: comparisons with nan are false. -/
def plt : PyF → PyF → Bool
  | PyF.nan, _ => false
  | _, PyF.nan => false
  | PyF.ninf, PyF.ninf => false
  | PyF.ninf, _ => true
  | _, PyF.ninf => false
  | PyF.pinf, _ => false
  | PyF.num _, PyF.pinf => true
  | PyF.num a, PyF.num b => decide (a < b)

/-- `np.log` on a float: `log 0 = -inf`, `log x = nan` for `x < 0`; the value
on positive finite arguments is the oracle scalar-log function `logf`. -/
def plog (logf : ℚ → ℚ) : PyF → PyF
  | PyF.nan => PyF.nan
  | PyF.pinf => PyF.pinf
  | PyF.ninf => PyF.nan
  | PyF.num a => if a = 0 then PyF.ninf else if a < 0 then PyF.nan else PyF.num (logf a)

/-- `np.exp` on a float; the value on finite arguments is the
scalar-exp oracle `expfq`. -/
def pexp (expfq : ℚ → ℚ) : PyF → PyF
  | PyF.nan => PyF.nan
  | PyF.pinf => PyF.pinf
  | PyF.ninf => PyF.num 0
  | PyF.num a => PyF.num (expfq a)

/-- `scipy.special.logsumexp` along a row, used through its documented
contract `log (sum (exp components))`; nan entries propagate to nan exactly
as in scipy. -/
def plogsumexp (logf expfq : ℚ → ℚ) (l : List PyF) : PyF :=
  plog logf (psum (l.map (pexp expfq)))

/-- Result of `Patient.get_beta_vector`: the beta row and whether the
`np.isnan(beta).any()` check of ct_hmm.py lines 586-587 fired (the source
then executes `import pdb; pdb.set_trace()`, an interactive pause, and on
resume falls through to `return beta`). -/
structure BetaRes (n : ℕ) where
  beta : Fin n → PyF
  paused : Bool

/-- Embedding of `Patient.get_beta_vector` (ct_hmm.py lines 566-588):
`components = np.log(beta_after) + np.log(expm_matrix) + np.log(b)` (the two
vectors broadcast along rows), `beta = np.exp(logsumexp(components, 1))`
scaled by `1/C[i+1]`; a nan in the result sets the pause flag but is still
returned. -/
def get_beta_vector (logf expfq : ℚ → ℚ) (C : ℕ → PyF) (i : ℕ) (b : Fin n → PyF)
    (expm_matrix : Fin n → Fin n → PyF) (beta_after : Fin n → PyF) : BetaRes n :=
  let components : Fin n → Fin n → PyF := fun p q =>
    padd (padd (plog logf (beta_after q)) (plog logf (expm_matrix p q))) (plog logf (b q))
  let beta : Fin n → PyF := fun p =>
    pdiv (pexp expfq (plogsumexp logf expfq ((List.finRange n).map (fun q => components p q))))
      (C (i + 1))
  BetaRes.mk beta ((List.finRange n).any (fun p => pisnan (beta p)))

/-- The Python value of the `Nij` accumulator of `EM_step`: it is initialised
to the integer `0` (line 162) and becomes a numpy matrix only after the first
`Nij += ...` of a recognised statistics method. -/
inductive IntOrMat (n : ℕ) where
  | intv : ℤ → IntOrMat n
  | mat : Mat n → IntOrMat n

/-- The Python value of the `TauI` accumulator of `EM_step` (line 163). -/
inductive IntOrVec (n : ℕ) where
  | intv : ℤ → IntOrVec n
  | vec : Vec n → IntOrVec n

/-- `Nij += M` with numpy broadcasting: adding a matrix to the integer `0`
yields a matrix. -/
def addIM : IntOrMat n → Mat n → IntOrMat n
  | IntOrMat.intv z, M => IntOrMat.mat (fun i j => (z : ℚ) + M i j)
  | IntOrMat.mat M0, M => IntOrMat.mat (fun i j => M0 i j + M i j)

/-- `TauI += v` with numpy broadcasting. -/
def addIV : IntOrVec n → Vec n → IntOrVec n
  | IntOrVec.intv z, v => IntOrVec.vec (fun i => (z : ℚ) + v i)
  | IntOrVec.vec v0, v => IntOrVec.vec (fun i => v0 i + v i)

/-- `Nij[i,j]`: subscripting the integer variant raises `TypeError`
('int' object is not subscriptable). -/
def ixM : IntOrMat n → Fin n → Fin n → Except PyErr ℚ
  | IntOrMat.intv _, _, _ => Except.error PyErr.typeError
  | IntOrMat.mat M, i, j => Except.ok (M i j)

/-- `TauI[i]` on the accumulator. -/
def ixV : IntOrVec n → Fin n → Except PyErr ℚ
  | IntOrVec.intv _, _ => Except.error PyErr.typeError
  | IntOrVec.vec v, i => Except.ok (v i)

/-- Result of `update_model_params`: the updated generator, the updated
initial distribution, the freshly built emission-parameter lists (built only
when the corresponding update flag is set), and whether any
`np.isnan(self.Q[i,j])` check of line 214 fired (the source then executes
`import pdb; pdb.set_trace()` and, on resume, continues). -/
structure MRes (n : ℕ) where
  Q : Fin n → Fin n → PyF
  paused : Bool
  pi0 : Fin n → PyF
  ls_mu : List PyF
  ls_sigma : List PyF

/-- The floor `1e-10` applied by the `bound` option of the M-step. -/
def qfloor : ℚ := 1 / 10000000000

/-- One mask-allowed off-diagonal update of the M-step Q loop (ct_hmm.py
lines 210-218): `self.Q[i,j] = Nij[i,j]/TauI[i]`, record the nan pause, then
floor at `1e-10` when `bound` is set (a nan fails the `< 1e-10` comparison
and is kept). -/
def qUpdateStep (Qstruct : Mat n) (Nij : IntOrMat n) (TauI : IntOrVec n) (bound : Bool)
    (st : (Fin n → Fin n → PyF) × Bool) (ij : Fin n × Fin n) :
    Except PyErr ((Fin n → Fin n → PyF) × Bool) :=
  if Qstruct ij.1 ij.2 = 1 then do
    let nv ← ixM Nij ij.1 ij.2
    let tv ← ixV TauI ij.1
    let q := pdivQ nv tv
    let pause := pisnan q
    let q2 := if bound = true ∧ plt q (PyF.num qfloor) = true then PyF.num qfloor else q
    Except.ok
      (fun a b => if a = ij.1 ∧ b = ij.2 then q2 else st.1 a b, st.2 || pause)
  else Except.ok st

/-- The row-major iteration order of the nested `for i ... for j ...` loops. -/
def idxPairs (n : ℕ) : List (Fin n × Fin n) :=
  (List.finRange n).flatMap (fun i => (List.finRange n).map (fun j => (i, j)))

/-- Embedding of `CT_HMM_LEARNER.update_model_params` (ct_hmm.py lines
208-235).  After the off-diagonal Q loop, each diagonal entry is set to `0`
and then to minus the row sum (lines 225-226); `pi0` is the elementwise
quotient of its accumulators (line 231); when `update_mu`/`update_sigma` is
set, the new emission lists are the unguarded elementwise quotients of their
accumulators (lines 228, 230). -/
def update_model_params (Qstruct : Mat n) (Q0 : Fin n → Fin n → PyF)
    (Nij : IntOrMat n) (TauI : IntOrVec n)
    (mu_num mu_den pi0_num pi0_den sigma_num sigma_den : Vec n)
    (update_sigma update_mu bound : Bool) : Except PyErr (MRes n) := do
  let st ← (idxPairs n).foldlM (qUpdateStep Qstruct Nij TauI bound) (Q0, false)
  let Qmid := st.1
  let Qfin : Fin n → Fin n → PyF := fun i j =>
    if i = j then
      pneg (psum (((List.finRange n).filter (fun j2 => j2 ≠ i)).map (fun j2 => Qmid i j2)))
    else Qmid i j
  Except.ok
    (MRes.mk Qfin st.2
      (fun i => pdivQ (pi0_num i) (pi0_den i))
      (if update_mu then (List.finRange n).map (fun i => pdivQ (mu_num i) (mu_den i)) else [])
      (if update_sigma then (List.finRange n).map (fun i => pdivQ (sigma_num i) (sigma_den i)) else []))

/-- A value stored in the `Nij_end_state` dictionary by
`Eigen_Nij_time_interval_end_state`: the Python int `0` on the diagonal
(line 252), a matrix otherwise. -/
inductive EndStateVal (n : ℕ) where
  | zero : EndStateVal n
  | mat : Mat n → EndStateVal n

/-- Embedding of `CT_HMM_LEARNER.Eigen_Nij_time_interval_end_state`
(ct_hmm.py lines 247-252): stores
`Q[i,j] * U · (outer(V[:,i],U[j,:]) ∘ Psi) · V` for `i ≠ j`, the integer `0`
on the diagonal. -/
def Eigen_Nij_time_interval_end_state (M : Model n) (t : ℚ) (Psi : Mat n)
    (i j : Fin n) : EndStateVal n :=
  if i = j then EndStateVal.zero
  else EndStateVal.mat (fun a b =>
    M.Q i j * ∑ c, ∑ d, M.U a c * (M.V c i * M.U j d * Psi c d) * M.V d b)

/-- Embedding of `CT_HMM_LEARNER.Eigen_TauI_time_interval_end_state`
(ct_hmm.py lines 274-277).  After computing `Ai`, the source evaluates
`if i != j:` where the name `j` is bound nowhere in the function (it is not
a parameter, is never assigned, and no global `j` exists in the module), so
Python raises `NameError` before anything is stored. -/
def Eigen_TauI_time_interval_end_state (M : Model n) (t : ℚ) (Psi : Mat n)
    (i : Fin n) : Except PyErr (EndStateVal n) :=
  Except.error PyErr.nameError

/-- Embedding of `CT_HMM_LEARNER.Eigen_all_end_state_conditioned` (ct_hmm.py
lines 237-245): for every cached time interval, build `Psi` and fill the
`TauI_end_state` and `Nij_end_state` dictionaries for every state and state
pair.  The first `Eigen_TauI_time_interval_end_state` call raises. -/
def Eigen_all_end_state_conditioned (M : Model n) (timeIntervals : List ℚ) :
    Except PyErr Unit :=
  timeIntervals.foldlM (fun _ t =>
    let Psi := calculate_Psi_eigen M t
    (List.finRange n).foldlM (fun _ i => do
      let _ ← Eigen_TauI_time_interval_end_state M t Psi i
      let _ := (List.finRange n).map (fun j => Eigen_Nij_time_interval_end_state M t Psi i j)
      Except.ok ()) ()) ()

/-- Per-patient data consumed by one `EM_step` pass: the consecutive
observation steps (gap, forward vector, backward vector, emissions) for the
statistics methods, and `Alpha[0]`, `Beta[0]` for the `t == 0` marginal of
the pi0 accumulators.  The `for t in range(patient.num_obs)` loop of
ct_hmm.py lines 196-205 only accumulates at `t == 0`: every other
accumulation line is commented out in the source, so the `t > 0` iterations
compute `gamma_t` and discard it. -/
structure PatientData (n : ℕ) where
  steps : List (Step n)
  alpha0 : Vec n
  beta0 : Vec n

/-- The accumulator state of one E-step pass over all patients
(ct_hmm.py lines 162-170). -/
structure EStepOut (n : ℕ) where
  Nij : IntOrMat n
  TauI : IntOrVec n
  mu_num : Vec n
  mu_den : Vec n
  sigma_num : Vec n
  sigma_den : Vec n
  pi0_num : Vec n
  pi0_den : Vec n

/-- The initial accumulators of `EM_step`: `Nij = 0`, `TauI = 0` (Python
ints), all storage arrays `np.zeros(num_state)`. -/
def EMacc0 : EStepOut n :=
  EStepOut.mk (IntOrMat.intv 0) (IntOrVec.intv 0)
    (fun _ => 0) (fun _ => 0) (fun _ => 0) (fun _ => 0) (fun _ => 0) (fun _ => 0)

/-- The method-name strings the E-step dispatches on (ct_hmm.py lines
180-186). -/
def methodEigen : String := "eigen"

/-- The second recognised statistics-method name. -/
def methodExpm : String := "expm"

/-- One patient's contribution to the accumulators (the body of the
`for patient in self.patients` loop, ct_hmm.py lines 177-205): the selected
statistics method adds to `Nij`/`TauI` (an unrecognised method name matches
neither branch and adds nothing), and the first-observation marginal
`gamma_0 = Alpha[0]*Beta[0]` feeds the pi0 accumulators. -/
def EMPatientStep (M : Model n) (method : String) (acc : EStepOut n)
    (p : PatientData n) : EStepOut n :=
  let acc2 :=
    if method = methodEigen then
      EStepOut.mk (addIM acc.Nij (Eigen_Nij_all_times M p.steps))
        (addIV acc.TauI (Eigen_TauI_all_times M p.steps))
        acc.mu_num acc.mu_den acc.sigma_num acc.sigma_den acc.pi0_num acc.pi0_den
    else if method = methodExpm then
      let tn := Expm_TauI_Nij_all_times M p.steps
      EStepOut.mk (addIM acc.Nij tn.2) (addIV acc.TauI tn.1)
        acc.mu_num acc.mu_den acc.sigma_num acc.sigma_den acc.pi0_num acc.pi0_den
    else acc
  let gamma0 : Vec n := fun i => p.alpha0 i * p.beta0 i
  EStepOut.mk acc2.Nij acc2.TauI acc2.mu_num acc2.mu_den acc2.sigma_num acc2.sigma_den
    (fun i => acc2.pi0_num i + gamma0 i)
    (fun i => acc2.pi0_den i + ∑ j, gamma0 j)

/-- The E-step accumulation over all patients. -/
def EM_accumulate (M : Model n) (method : String) (patients : List (PatientData n)) :
    EStepOut n :=
  patients.foldl (EMPatientStep M method) EMacc0

/-- Embedding of `CT_HMM_LEARNER.EM_step` (ct_hmm.py lines 160-206): when
`fast_eigen` is false and the method is eigen, the end-state precomputation
runs first (and raises, see `Eigen_TauI_time_interval_end_state`); then the
accumulators are filled over all patients and passed to
`update_model_params`.  The result carries both the M-step output and the
final accumulator state. -/
def EM_step (M : Model n) (timeIntervals : List ℚ) (method : String)
    (fast_eigen update_sigma update_mu bound : Bool)
    (patients : List (PatientData n)) : Except PyErr (MRes n × EStepOut n) := do
  if fast_eigen = false ∧ method = methodEigen then
    Eigen_all_end_state_conditioned M timeIntervals
  let acc := EM_accumulate M method patients
  let r ← update_model_params M.Qstruct (fun i j => PyF.num (M.Q i j)) acc.Nij acc.TauI
    acc.mu_num acc.mu_den acc.pi0_num acc.pi0_den acc.sigma_num acc.sigma_den
    update_sigma update_mu bound
  Except.ok (r, acc)

/-- The loop guard of `run_EM` (ct_hmm.py line 130):
`np.abs(old_log_likelihood - new_log_likelihood) > tol`, where the initial
`old_log_likelihood = -np.inf` (modelled as `none`) always passes the
guard. -/
def notConverged (tol : ℚ) (old : Option ℚ) (nw : ℚ) : Bool :=
  match old with
  | none => true
  | some o => decide (|o - nw| > tol)

/-- The `while` loop of `run_EM` (ct_hmm.py lines 130-136), fuelled so that
it is a total function: while the guard holds, run one `EM_step` (abstracted
as `step` on an abstract learner state, with `ll` the
`calculate_log_likelihood` of the stepped state), shift `new` into `old`,
and recompute `new`.  `none` means the fuel ran out with the loop still
running; the source has no such bound and would still be iterating. -/
def run_EM_aux {σ : Type} (step : σ → σ) (ll : σ → ℚ) (tol : ℚ) :
    ℕ → σ → Option ℚ → ℚ → Option (σ × Option ℚ × ℚ)
  | 0, _, _, _ => none
  | fuel + 1, s, old, nw =>
    if notConverged tol old nw then
      run_EM_aux step ll tol fuel (step s) (some nw) (ll (step s))
    else some (s, old, nw)

/-- Embedding of `CT_HMM_LEARNER.run_EM` (ct_hmm.py lines 119-136): the loop
starts from `old = -inf` (`none`) and `new = 0`.  `run_EM` takes no
iteration-cap parameter in the source; the fuel is only the observation
bound of the embedding. -/
def run_EM {σ : Type} (step : σ → σ) (ll : σ → ℚ) (tol : ℚ) (fuel : ℕ) (s0 : σ) :
    Option (σ × Option ℚ × ℚ) :=
  run_EM_aux step ll tol fuel s0 none 0

/-- The sequence of `new_log_likelihood` values along the `run_EM` loop:
`wseq 0 = 0` is the initial `new_log_likelihood`, and `wseq (k+1)` is the
log-likelihood after the `(k+1)`-st `EM_step`. -/
def wseq {σ : Type} (step : σ → σ) (ll : σ → ℚ) (s0 : σ) : ℕ → ℚ
  | 0 => 0
  | k + 1 => ll (step^[k + 1] s0)

/-- Embedding of the `Patient` record; only the constructor-relevant fields
are carried. -/
structure Patient where
  end_time : ℚ
  censored : Bool

/-- Embedding of `Patient.__init__` (ct_hmm.py lines 441-443): the stored
`censored` attribute is the literal `False` of line 443; the constructor
argument is ignored. -/
def Patient.init (end_time : ℚ) (censored : Bool) : Patient :=
  Patient.mk end_time false

/-- The itertools.product enumeration of per-marker level tuples, first list
outermost, matching `itertools.product(*temp)` in `create_Q_struct`. -/
def prodTuples : List ℕ → List (List ℕ)
  | [] => [[]]
  | k :: ks => (List.range k).flatMap (fun v => (prodTuples ks).map (fun t => v :: t))

/-- The `within_step` flag of the `forward_step` topology (ct_hmm.py lines
79-83): every marker level must stay equal or increase by exactly one
(`cj[idx] - ci[idx] < 0` or `> 1` clears the flag). -/
def within_step (ci cj : List ℕ) : Bool :=
  (List.range cj.length).all (fun idx =>
    decide (ci.getD idx 0 ≤ cj.getD idx 0 ∧ cj.getD idx 0 ≤ ci.getD idx 0 + 1))

/-- The `forward` flag of the `forward_any` topology (ct_hmm.py lines
98-102): no marker level may decrease. -/
def forward_any_ok (ci cj : List ℕ) : Bool :=
  (List.range cj.length).all (fun idx => decide (ci.getD idx 0 ≤ cj.getD idx 0))

/-- The recognised topology names of `create_Q_struct`. -/
def structFc : String := "fc"

/-- The stepwise-forward topology name. -/
def structForwardStep : String := "forward_step"

/-- The any-forward topology name. -/
def structForwardAny : String := "forward_any"

/-- Embedding of `CT_HMM_LEARNER.create_Q_struct` (ct_hmm.py lines 60-108)
over ℕ-indexed matrices (the `np.zeros((numstates,numstates))` array): `fc`
marks every off-diagonal pair; the two forward topologies enumerate the
itertools product of per-marker level ranges (`lsMuLens` are the
`len(self.ls_mu[i])`); any other name raises the `Exception` of line 106. -/
def create_Q_struct (lsMuLens : List ℕ) (struct : String) (numstates : ℕ) :
    Except PyErr (ℕ → ℕ → ℚ) :=
  if struct = structFc then
    Except.ok (fun i j => if i < numstates ∧ j < numstates ∧ i ≠ j then 1 else 0)
  else if struct = structForwardStep then
    let tuples := prodTuples lsMuLens
    Except.ok (fun i j =>
      match tuples.get? i, tuples.get? j with
      | some ci, some cj => if ci ≠ cj ∧ within_step ci cj = true then 1 else 0
      | _, _ => 0)
  else if struct = structForwardAny then
    let tuples := prodTuples lsMuLens
    Except.ok (fun i j =>
      match tuples.get? i, tuples.get? j with
      | some ci, some cj => if ci ≠ cj ∧ forward_any_ok ci cj = true then 1 else 0
      | _, _ => 0)
  else Except.error PyErr.unknownStructError

/-- The `num_state` computation of `CT_HMM_LEARNER.__init__` (ct_hmm.py
lines 22-27): the product of the per-marker level counts; an empty `ls_mu`
hits `len(ls_mu[0])` and raises `IndexError`. -/
def num_state_of (lsMuLens : List ℕ) : Except PyErr ℕ :=
  match lsMuLens with
  | [] => Except.error PyErr.indexError
  | l :: ls => Except.ok (ls.foldl (fun a b => a * b) l)

/-- The learner state produced by construction. -/
structure Learner where
  num_state : ℕ
  Q_struct : ℕ → ℕ → ℚ
  Q : ℕ → ℕ → ℚ
  method : String
  bound : Bool

/-- Embedding of `CT_HMM_LEARNER.__init__` (ct_hmm.py lines 12-46) for the
construction-relevant behaviour: compute `num_state`, build the structural
mask (which may raise), and either adopt the supplied generator or the
seeded-random one (`randQ` is the `np.random.rand` oracle) masked to the
structure with diagonals set to minus the row sum (lines 32-41).  The
`method` string is stored without any validation. -/
def CT_HMM_init (randQ : ℕ → ℕ → ℚ) (Qopt : Option (ℕ → ℕ → ℚ))
    (ls_mu : List (List ℚ)) (struct : String) (method : String) (bound : Bool) :
    Except PyErr Learner := do
  let nst ← num_state_of (ls_mu.map List.length)
  let Qs ← create_Q_struct (ls_mu.map List.length) struct nst
  let Q :=
    match Qopt with
    | some Q => Q
    | none =>
      let masked : ℕ → ℕ → ℚ := fun i j => if Qs i j = 0 then 0 else randQ i j
      fun i j =>
        if i < nst ∧ i = j then -(((List.range nst).map (fun j2 => masked i j2)).sum)
        else masked i j
  Except.ok (Learner.mk nst Qs Q method bound)

/-! Concrete two-state instance used by witnesses and counterexamples.
It is the spec's own test scenario `Q = [[-1,1],[1,-1]]`, `pi0 = [0.5,0.5]`,
one sequence observed at times `[0,1]`, with the fully-connected mask.  The
library oracles are instantiated with exact rational values: the
eigendecomposition of this `Q` is `D = (0,-2)`, `U = [[1,1],[1,-1]]`,
`V = U⁻¹`, and the scalar-exp oracle returns `27/200` at `-2` (a rational
sample of `e⁻² ≈ 0.1353`); the transition kernel and augmented-exponential
oracles are the exact matrix expressions these eigendata induce, so the
oracle contracts hold definitionally. -/

/-- Eigenvalues of the two-state generator. -/
def D2 : Vec 2 := ![0, -2]

/-- Right eigenvectors of the two-state generator. -/
def U2 : Mat 2 := ![![1, 1], ![1, -1]]

/-- Inverse of `U2`. -/
def V2 : Mat 2 := ![![1/2, 1/2], ![1/2, -1/2]]

/-- The two-state generator of the spec's concrete scenario. -/
def Q2 : Mat 2 := ![![-1, 1], ![1, -1]]

/-- The fully-connected structural mask on two states. -/
def Qstruct2 : Mat 2 := ![![0, 1], ![1, 0]]

/-- Scalar-exp oracle sampled at the two points the instance needs. -/
def expf2 : ℚ → ℚ := fun x => if x = 0 then 1 else if x = -2 then 27/200 else 1

/-- The transition kernel `expm(Q*t)` at the only gap `t = 1`:
`[[(1+r)/2, (1-r)/2], [(1-r)/2, (1+r)/2]]` with `r = 27/200`. -/
def Pt2 : ℚ → Mat 2 := fun _ => ![![227/400, 173/400], ![173/400, 227/400]]

/-- The Psi matrix the eigendata of the instance induce (the value
`calculate_Psi_eigen` computes for it). -/
def Psi2 (t : ℚ) : Mat 2 := fun p q =>
  if D2 p = D2 q then t * expf2 (t * D2 p)
  else (expf2 (t * D2 p) - expf2 (t * D2 q)) / (D2 p - D2 q)

/-- The augmented-exponential oracle of the instance: the upper-right block
of `expm(A*t)` expressed through the eigendecomposition,
`U · (Psi ∘ (V E_{ab} U)) · V`, which is the closed form of
`∫ expm(Q s) E_{ab} expm(Q (t-s)) ds`. -/
def expmA2 : ℚ → Fin 2 → Fin 2 → Mat 2 := fun t a b k l =>
  ∑ p, ∑ q, U2 k p * Psi2 t p q * V2 p a * U2 b q * V2 q l

/-- The concrete two-state model. -/
def M2 : Model 2 :=
  Model.mk Q2 Qstruct2 U2 V2 Pt2 (fun _ => D2) expf2 expmA2

/-- The single observation step of the concrete sequence: gap `1`, with
representative forward, backward and emission values (`Alpha[0] = [1/2,1/2]`,
`Beta[1] = [1,1]`, `b = [1/2,1/2]`). -/
def st2 : Step 2 := Step.mk 1 ![1/2, 1/2] ![1, 1] ![1/2, 1/2]

/-- The concrete patient for EM-level claims. -/
def pd2 : PatientData 2 := PatientData.mk [st2] ![1/2, 1/2] ![1, 1]

/-- An unrecognised statistics-method name. -/
def methodPower : String := "power"

/-- The `np.random.rand` oracle for construction witnesses. -/
def randOracle : ℕ → ℕ → ℚ := fun _ _ => 1/2

/-- A concrete univariate two-state emission-mean list. -/
def lsMu2 : List (List ℚ) := [[0, 1]]

/-- The generator of the concrete instance as a float matrix. -/
def Q2PyF : Fin 2 → Fin 2 → PyF := fun i j => PyF.num (Q2 i j)

/-- An all-zero `Nij` array (the statistics of a degenerate E-step). -/
def NijZeroM : IntOrMat 2 := IntOrMat.mat (fun _ _ => 0)

/-- An `Nij` array with ones at the mask-allowed entries. -/
def NijOnesM : IntOrMat 2 := IntOrMat.mat ![![0, 1], ![1, 0]]

/-- An all-zero `TauI` array: every expected sojourn time is zero. -/
def TauIZeroV : IntOrVec 2 := IntOrVec.vec (fun _ => 0)

/-- The all-zeros accumulator vector. -/
def zeroVec2 : Vec 2 := fun _ => 0

/-- A backward vector containing a nan, as propagated by an unstable
recursion. -/
def betaAfterNan : Fin 2 → PyF := ![PyF.nan, PyF.num 1]

/-- An all-ones emission row for the backward-recursion instance. -/
def bOnes : Fin 2 → PyF := fun _ => PyF.num 1

/-- A constant transition-kernel matrix for the backward-recursion
instance (the entry values are irrelevant to the nan check). -/
def expmOnes : Fin 2 → Fin 2 → PyF := fun _ _ => PyF.num 1

/-- Scaling constants all equal to one. -/
def COnes : ℕ → PyF := fun _ => PyF.num 1

/-- Identity stand-in for the scalar log/exp oracles on the nan-propagation
path (their finite values are irrelevant to the nan check). -/
def idQ : ℚ → ℚ := fun x => x

/-- A generator with two eigenvalues that differ by `10⁻⁹` — far inside any
reasonable tolerance, but not exactly equal.  Only the `eig` and `expf`
oracles are consulted by `calculate_Psi_eigen`. -/
def D5 : Vec 2 := ![0, 1/1000000000]

/-- Scalar-exp oracle for the near-degenerate instance: truthful rational
samples `exp 0 = 1` and `exp 10⁻⁹ = 1 + 10⁻⁹ + 10⁻¹⁸/2`. -/
def expf5 : ℚ → ℚ := fun x =>
  if x = 0 then 1
  else if x = 1/1000000000 then 1 + 1/1000000000 + 1/2000000000000000000
  else 1

/-- A model whose generator has the near-degenerate spectrum `D5`. -/
def M5 : Model 2 :=
  Model.mk 0 Qstruct2 1 1 (fun _ _ _ => 1) (fun _ => D5) expf5 (fun _ _ _ _ _ => 0)

/-- The log-likelihood trace of a learner whose likelihood grows by `1`
every EM iteration (abstract learner state = iteration count). -/
def llDiverge : ℕ → ℚ := fun m => (m : ℚ)

/-- A log-likelihood trace that is constant, so the loop converges at the
second check. -/
def llConst : ℕ → ℚ := fun _ => 0

/-- The value of one Q-loop step when the statistics accumulators are
arrays (the branch of `qUpdateStep` that cannot raise). -/
def qUpdateStepPure (Qstruct : Mat n) (N : Mat n) (T : Vec n) (bound : Bool)
    (st : (Fin n → Fin n → PyF) × Bool) (ij : Fin n × Fin n) :
    (Fin n → Fin n → PyF) × Bool :=
  if Qstruct ij.1 ij.2 = 1 then
    let q := pdivQ (N ij.1 ij.2) (T ij.1)
    let pause := pisnan q
    let q2 := if bound = true ∧ plt q (PyF.num qfloor) = true then PyF.num qfloor else q
    (fun a b => if a = ij.1 ∧ b = ij.2 then q2 else st.1 a b, st.2 || pause)
  else st

/-- The result `update_model_params` produces when the statistics
accumulators are arrays (its successful path). -/
def update_pure (Qstruct : Mat n) (Q0 : Fin n → Fin n → PyF) (N : Mat n) (T : Vec n)
    (mu_num mu_den pi0_num pi0_den sigma_num sigma_den : Vec n)
    (update_sigma update_mu bound : Bool) : MRes n :=
  let st := (idxPairs n).foldl (qUpdateStepPure Qstruct N T bound) (Q0, false)
  MRes.mk
    (fun i j =>
      if i = j then
        pneg (psum (((List.finRange n).filter (fun j2 => j2 ≠ i)).map (fun j2 => st.1 i j2)))
      else st.1 i j)
    st.2
    (fun i => pdivQ (pi0_num i) (pi0_den i))
    (if update_mu then (List.finRange n).map (fun i => pdivQ (mu_num i) (mu_den i)) else [])
    (if update_sigma then
      (List.finRange n).map (fun i => pdivQ (sigma_num i) (sigma_den i)) else [])

/-- Decidable equality of embedded Python results, for evaluating concrete
outcomes. -/
instance {ε α : Type} [DecidableEq ε] [DecidableEq α] : DecidableEq (Except ε α) :=
  fun a b =>
    match a, b with
    | Except.ok x, Except.ok y =>
      if h : x = y then Decidable.isTrue (congrArg Except.ok h)
      else Decidable.isFalse (fun hc => h (Except.ok.inj hc))
    | Except.error x, Except.error y =>
      if h : x = y then Decidable.isTrue (congrArg Except.error h)
      else Decidable.isFalse (fun hc => h (Except.error.inj hc))
    | Except.ok _, Except.error _ => Decidable.isFalse (fun hc => Except.noConfusion hc)
    | Except.error _, Except.ok _ => Decidable.isFalse (fun hc => Except.noConfusion hc)

/-! Theorems. -/

/-- Interchange of the outer and inner index pairs in a fourfold sum. -/
lemma sum_comm4 {α : Type} [AddCommMonoid α] (f : Fin n → Fin n → Fin n → Fin n → α) :
    (∑ k, ∑ l, ∑ p, ∑ q, f k l p q) = ∑ p, ∑ q, ∑ k, ∑ l, f k l p q := by
  have h1 : (∑ k, ∑ l, ∑ p, ∑ q, f k l p q) = ∑ k, ∑ p, ∑ l, ∑ q, f k l p q :=
    Finset.sum_congr rfl (fun k _ => Finset.sum_comm)
  have h2 : (∑ k, ∑ p, ∑ l, ∑ q, f k l p q) = ∑ p, ∑ k, ∑ l, ∑ q, f k l p q :=
    Finset.sum_comm
  have h3 : (∑ p, ∑ k, ∑ l, ∑ q, f k l p q) = ∑ p, ∑ k, ∑ q, ∑ l, f k l p q :=
    Finset.sum_congr rfl (fun p _ => Finset.sum_congr rfl (fun k _ => Finset.sum_comm))
  have h4 : (∑ p, ∑ k, ∑ q, ∑ l, f k l p q) = ∑ p, ∑ q, ∑ k, ∑ l, f k l p q :=
    Finset.sum_congr rfl (fun p _ => Finset.sum_comm)
  rw [h1, h2, h3, h4]

/-- Congruence for sums of mapped lists. -/
lemma listsum_congr {α : Type} (l : List α) (f g : α → ℚ) (h : ∀ x ∈ l, f x = g x) :
    (l.map f).sum = (l.map g).sum := by
  induction l with
  | nil => rfl
  | cons x xs ih =>
    simp only [List.map_cons, List.sum_cons]
    rw [h x (by simp), ih (fun y hy => h y (by simp [hy]))]

/-- A mapped sum of zeros is zero. -/
lemma listsum_zero {α : Type} (l : List α) (f : α → ℚ) (h : ∀ x ∈ l, f x = 0) :
    (l.map f).sum = 0 := by
  induction l with
  | nil => rfl
  | cons x xs ih =>
    simp only [List.map_cons, List.sum_cons]
    rw [h x (by simp), ih (fun y hy => h y (by simp [hy])), add_zero]

/-- A mapped sum of nonnegative terms is nonnegative. -/
lemma listsum_nonneg {α : Type} (l : List α) (f : α → ℚ) (h : ∀ x ∈ l, 0 ≤ f x) :
    0 ≤ (l.map f).sum := by
  induction l with
  | nil => exact le_refl 0
  | cons x xs ih =>
    simp only [List.map_cons, List.sum_cons]
    exact add_nonneg (h x (by simp)) (ih (fun y hy => h y (by simp [hy])))

/-- A common factor on the right of every mapped term moves out of the sum. -/
lemma listsum_mul_right {α : Type} (l : List α) (f : α → ℚ) (c : ℚ) :
    (l.map (fun x => f x * c)).sum = (l.map f).sum * c := by
  induction l with
  | nil => simp
  | cons x xs ih =>
    simp only [List.map_cons, List.sum_cons]
    rw [ih, add_mul]

/-- Core algebraic identity behind the method equivalence: when the
augmented-exponential block satisfies the eigendecomposition closed form of
the time-integral kernel, the per-gap accumulation `temp_sum` of the expm
method equals the `Aab ∘ B` contraction of the eigen method. -/
lemma tempSum_eq_contraction (M : Model n) (st : Step n) (a b : Fin n)
    (hPt : ∀ k l, M.Pt st.gap k l ≠ 0)
    (hA : ∀ k l, M.expmA st.gap a b k l =
      ∑ p, ∑ q, M.U k p * calculate_Psi_eigen M st.gap p q * M.V p a * M.U b q * M.V q l) :
    tempSum M st a b =
      ∑ p, ∑ q, (M.V p a * M.U b q * calculate_Psi_eigen M st.gap p q) *
        Bmat M st.gap (stepZeta M st) p q := by
  have h1 : ∀ k l : Fin n,
      (if M.Pt st.gap k l ≠ 0 then
        stepZeta M st k l * M.expmA st.gap a b k l / M.Pt st.gap k l else 0)
      = ∑ p, ∑ q, (M.V p a * M.U b q * calculate_Psi_eigen M st.gap p q) *
          (M.U k p * (stepZeta M st k l / M.Pt st.gap k l) * M.V q l) := by
    intro k l
    rw [if_pos (hPt k l), hA k l, Finset.mul_sum, Finset.sum_div]
    refine Finset.sum_congr rfl (fun p _ => ?_)
    rw [Finset.mul_sum, Finset.sum_div]
    refine Finset.sum_congr rfl (fun q _ => ?_)
    ring
  calc tempSum M st a b
      = ∑ k, ∑ l, ∑ p, ∑ q, (M.V p a * M.U b q * calculate_Psi_eigen M st.gap p q) *
          (M.U k p * (stepZeta M st k l / M.Pt st.gap k l) * M.V q l) := by
        unfold tempSum
        exact Finset.sum_congr rfl (fun k _ => Finset.sum_congr rfl (fun l _ => h1 k l))
    _ = ∑ p, ∑ q, ∑ k, ∑ l, (M.V p a * M.U b q * calculate_Psi_eigen M st.gap p q) *
          (M.U k p * (stepZeta M st k l / M.Pt st.gap k l) * M.V q l) := sum_comm4 _
    _ = ∑ p, ∑ q, (M.V p a * M.U b q * calculate_Psi_eigen M st.gap p q) *
          Bmat M st.gap (stepZeta M st) p q := by
        unfold Bmat
        simp only [Finset.mul_sum]

/-- Per-gap form of the sojourn-statistic agreement. -/
lemma Eigen_TauI_interval_eq_tempSum (M : Model n) (st : Step n) (i : Fin n)
    (hPt : ∀ k l, M.Pt st.gap k l ≠ 0)
    (hA : ∀ k l, M.expmA st.gap i i k l =
      ∑ p, ∑ q, M.U k p * calculate_Psi_eigen M st.gap p q * M.V p i * M.U i q * M.V q l) :
    Eigen_TauI_time_interval M (stepZeta M st) st.gap (calculate_Psi_eigen M st.gap) i =
      tempSum M st i i := by
  unfold Eigen_TauI_time_interval
  exact (tempSum_eq_contraction M st i i hPt hA).symm

/-- The two sufficient-statistics methods compute the same expected sojourn
vector when the augmented-exponential oracle satisfies its eigendecomposition
contract. -/
lemma Expm_TauI_eq_Eigen (M : Model n) (steps : List (Step n))
    (hPt : ∀ st ∈ steps, ∀ k l, M.Pt st.gap k l ≠ 0)
    (hA : ∀ st ∈ steps, ∀ a b k l, M.expmA st.gap a b k l =
      ∑ p, ∑ q, M.U k p * calculate_Psi_eigen M st.gap p q * M.V p a * M.U b q * M.V q l)
    (i : Fin n) :
    Expm_TauI_all M steps i = Eigen_TauI_all_times M steps i := by
  unfold Expm_TauI_all Eigen_TauI_all_times
  exact listsum_congr steps _ _ (fun st hst =>
    (Eigen_TauI_interval_eq_tempSum M st i (hPt st hst)
      (fun k l => hA st hst i i k l)).symm)

/-- The two sufficient-statistics methods compute the same expected
transition count at every off-diagonal entry (the generator is zero at
mask-disallowed entries for every model the learner constructs or updates). -/
lemma Expm_Nij_eq_Eigen_offdiag (M : Model n) (steps : List (Step n))
    (hPt : ∀ st ∈ steps, ∀ k l, M.Pt st.gap k l ≠ 0)
    (hA : ∀ st ∈ steps, ∀ a b k l, M.expmA st.gap a b k l =
      ∑ p, ∑ q, M.U k p * calculate_Psi_eigen M st.gap p q * M.V p a * M.U b q * M.V q l)
    (hQ0 : ∀ i j, i ≠ j → M.Qstruct i j ≠ 1 → M.Q i j = 0)
    (i j : Fin n) (hij : i ≠ j) :
    Expm_Nij_all M steps i j = Eigen_Nij_all_times M steps i j := by
  unfold Expm_Nij_all Eigen_Nij_all_times
  rw [if_neg hij]
  by_cases hs : M.Qstruct i j = 1
  · rw [if_pos hs, zero_add]
    refine listsum_congr steps _ _ (fun st hst => ?_)
    unfold Eigen_Nij_time_interval
    rw [if_neg hij,
      tempSum_eq_contraction M st i j (hPt st hst) (fun k l => hA st hst i j k l)]
    ring
  · rw [if_neg hs, add_zero]
    symm
    refine listsum_zero steps _ (fun st hst => ?_)
    unfold Eigen_Nij_time_interval
    rw [if_neg hij, hQ0 i j hij hs, zero_mul]

/-- The eigen method never writes a diagonal `Nij` entry. -/
lemma Eigen_Nij_diag_zero (M : Model n) (steps : List (Step n)) (i : Fin n) :
    Eigen_Nij_all_times M steps i i = 0 := by
  unfold Eigen_Nij_all_times
  refine listsum_zero steps _ (fun st hst => ?_)
  unfold Eigen_Nij_time_interval
  rw [if_pos rfl]

/-- The expm method's diagonal `Nij` entry is the accumulated sojourn sum
scaled by the exit rate `-Q[i,i]`. -/
lemma Expm_Nij_diag (M : Model n) (steps : List (Step n))
    (hdiag : ∀ i, M.Qstruct i i ≠ 1) (i : Fin n) :
    Expm_Nij_all M steps i i = -(M.Q i i) * Expm_TauI_all M steps i := by
  unfold Expm_Nij_all Expm_TauI_all
  rw [if_pos rfl, if_neg (hdiag i), add_zero, listsum_mul_right]
  ring

/-- The zeta matrix is entrywise nonnegative whenever the kernel entries and
the forward/backward/emission vectors are nonnegative and the sequence
likelihood is positive. -/
lemma stepZeta_nonneg (M : Model n) (st : Step n)
    (hPt : ∀ k l, 0 < M.Pt st.gap k l)
    (ha : ∀ i, 0 ≤ st.alpha i) (hb : ∀ i, 0 ≤ st.beta i) (hbs : ∀ i, 0 ≤ st.b i)
    (hden : 0 < zeta_denom M st.gap st.alpha st.beta st.b) :
    ∀ k l, 0 ≤ stepZeta M st k l := by
  intro k l
  unfold stepZeta get_zeta
  exact div_nonneg
    (mul_nonneg (le_of_lt (hPt k l)) (mul_nonneg (ha k) (mul_nonneg (hbs l) (hb l))))
    (le_of_lt hden)

/-- The per-gap accumulation of the expm method is nonnegative when its
inputs are. -/
lemma tempSum_nonneg (M : Model n) (st : Step n) (a b : Fin n)
    (hPt : ∀ k l, 0 < M.Pt st.gap k l)
    (hZ : ∀ k l, 0 ≤ stepZeta M st k l)
    (hAnn : ∀ k l, 0 ≤ M.expmA st.gap a b k l) :
    0 ≤ tempSum M st a b := by
  unfold tempSum
  refine Finset.sum_nonneg (fun k _ => Finset.sum_nonneg (fun l _ => ?_))
  by_cases h : M.Pt st.gap k l ≠ 0
  · rw [if_pos h]
    exact div_nonneg (mul_nonneg (hZ k l) (hAnn k l)) (le_of_lt (hPt k l))
  · rw [if_neg h]

/-- The concrete transition-kernel oracle has no zero entry. -/
lemma M2_hPt : ∀ st ∈ [st2], ∀ k l : Fin 2, M2.Pt st.gap k l ≠ 0 := by
  intro st hst
  simp only [List.mem_singleton] at hst
  subst hst
  intro k l
  fin_cases k <;> fin_cases l <;> norm_num [M2, Pt2, st2]

/-- The concrete transition-kernel oracle is entrywise positive. -/
lemma M2_hPt_pos : ∀ st ∈ [st2], ∀ k l : Fin 2, 0 < M2.Pt st.gap k l := by
  intro st hst
  simp only [List.mem_singleton] at hst
  subst hst
  intro k l
  fin_cases k <;> fin_cases l <;> norm_num [M2, Pt2, st2]

/-- The concrete augmented-exponential oracle satisfies the
eigendecomposition contract definitionally. -/
lemma M2_hA : ∀ st ∈ [st2], ∀ a b k l : Fin 2, M2.expmA st.gap a b k l =
    ∑ p, ∑ q, M2.U k p * calculate_Psi_eigen M2 st.gap p q * M2.V p a * M2.U b q * M2.V q l := by
  intro st hst a b k l
  simp only [List.mem_singleton] at hst
  subst hst
  rfl

/-- The concrete generator is zero at mask-disallowed off-diagonal entries
(vacuously: the fully-connected mask allows every off-diagonal entry). -/
lemma M2_hQ0 : ∀ i j : Fin 2, i ≠ j → M2.Qstruct i j ≠ 1 → M2.Q i j = 0 := by
  intro i j hij hs
  fin_cases i <;> fin_cases j <;>
    first
      | exact absurd rfl hij
      | exact absurd (by norm_num [M2, Qstruct2]) hs

/-- The concrete mask has a zero diagonal. -/
lemma M2_hdiag : ∀ i : Fin 2, M2.Qstruct i i ≠ 1 := by
  intro i
  fin_cases i <;> norm_num [M2, Qstruct2]

/-- The concrete generator has nonnegative off-diagonal rates. -/
lemma M2_hQoff : ∀ i j : Fin 2, i ≠ j → 0 ≤ M2.Q i j := by
  intro i j hij
  fin_cases i <;> fin_cases j <;>
    first
      | exact absurd rfl hij
      | norm_num [M2, Q2]

/-- The concrete generator has nonpositive diagonal rates. -/
lemma M2_hQd : ∀ i : Fin 2, M2.Q i i ≤ 0 := by
  intro i
  fin_cases i <;> norm_num [M2, Q2]

/-- The concrete step has nonnegative forward/backward/emission vectors and
a positive sequence likelihood. -/
lemma M2_hstep : ∀ st ∈ [st2], (∀ i, 0 ≤ st.alpha i) ∧ (∀ i, 0 ≤ st.beta i) ∧
    (∀ i, 0 ≤ st.b i) ∧ 0 < zeta_denom M2 st.gap st.alpha st.beta st.b := by
  intro st hst
  simp only [List.mem_singleton] at hst
  subst hst
  refine ⟨?_, ?_, ?_, ?_⟩
  · intro i; fin_cases i <;> norm_num [st2]
  · intro i; fin_cases i <;> norm_num [st2]
  · intro i; fin_cases i <;> norm_num [st2]
  · norm_num [zeta_denom, M2, Pt2, st2, Fin.sum_univ_two]

/-- The concrete augmented-exponential oracle is entrywise nonnegative. -/
lemma M2_hAnn : ∀ st ∈ [st2], ∀ a b k l : Fin 2, 0 ≤ M2.expmA st.gap a b k l := by
  intro st hst a b k l
  simp only [List.mem_singleton] at hst
  subst hst
  fin_cases a <;> fin_cases b <;> fin_cases k <;> fin_cases l <;>
    norm_num [M2, expmA2, Psi2, U2, V2, D2, expf2, st2, Fin.sum_univ_two]

/-- The concrete diagonal entry the expm method produces. -/
lemma expm_diag_value : (Expm_TauI_Nij_all_times M2 [st2]).2 0 0 = 1 / 2 := by
  norm_num [Expm_TauI_Nij_all_times, Expm_Nij_all, tempSum, stepZeta, get_zeta, zeta_denom,
    M2, Pt2, Q2, Qstruct2, expmA2, Psi2, U2, V2, D2, expf2, st2, Fin.sum_univ_two]

/-- C1: the two sufficient-statistics methods agree exactly on the expected
sojourn vector TauI and on every off-diagonal entry of the expected
transition-count matrix Nij, for every model and dataset whose library
oracles satisfy their mathematical contracts (nonvanishing transition
kernel, augmented-exponential block equal to its eigendecomposition closed
form, generator zero at mask-disallowed off-diagonal entries, mask diagonal
unset); on the diagonal they differ structurally: the eigen method returns
exactly `0` while the expm method returns `-Q[i,i] * TauI[i]`.  Hence the
claimed agreement "including on the diagonal of Nij" fails in general (see
the counterexample), but agreement off the diagonal and on TauI holds. -/
theorem C1_methods_agree_except_diag (M : Model n) (steps : List (Step n))
    (hPt : ∀ st ∈ steps, ∀ k l, M.Pt st.gap k l ≠ 0)
    (hA : ∀ st ∈ steps, ∀ a b k l, M.expmA st.gap a b k l =
      ∑ p, ∑ q, M.U k p * calculate_Psi_eigen M st.gap p q * M.V p a * M.U b q * M.V q l)
    (hQ0 : ∀ i j, i ≠ j → M.Qstruct i j ≠ 1 → M.Q i j = 0)
    (hdiag : ∀ i, M.Qstruct i i ≠ 1) :
    (∀ i, (Expm_TauI_Nij_all_times M steps).1 i = Eigen_TauI_all_times M steps i)
    ∧ (∀ i j, i ≠ j →
        (Expm_TauI_Nij_all_times M steps).2 i j = Eigen_Nij_all_times M steps i j)
    ∧ (∀ i, Eigen_Nij_all_times M steps i i = 0)
    ∧ (∀ i, (Expm_TauI_Nij_all_times M steps).2 i i =
        -(M.Q i i) * (Expm_TauI_Nij_all_times M steps).1 i) :=
  ⟨fun i => Expm_TauI_eq_Eigen M steps hPt hA i,
   fun i j hij => Expm_Nij_eq_Eigen_offdiag M steps hPt hA hQ0 i j hij,
   fun i => Eigen_Nij_diag_zero M steps i,
   fun i => Expm_Nij_diag M steps hdiag i⟩

/-- Witness for C1 at the concrete two-state instance: the sojourn vectors
of the two methods coincide at state 0. -/
theorem C1_methods_agree_except_diag_witness :
    (Expm_TauI_Nij_all_times M2 [st2]).1 0 = Eigen_TauI_all_times M2 [st2] 0 :=
  (C1_methods_agree_except_diag M2 [st2] M2_hPt M2_hA M2_hQ0 M2_hdiag).1 0

/-- Counterexample for C1 as stated: on the concrete valid two-state model
the two methods do NOT return the same Nij within `1e-6` on the diagonal —
the expm method stores `1/2` at `(0,0)` while the eigen method stores `0`. -/
theorem C1_diag_counterexample :
    ¬ (∀ i j : Fin 2, |(Expm_TauI_Nij_all_times M2 [st2]).2 i j -
        Eigen_Nij_all_times M2 [st2] i j| ≤ 1 / 1000000) := by
  intro h
  have h00 := h 0 0
  rw [expm_diag_value, Eigen_Nij_diag_zero, sub_zero] at h00
  rw [abs_of_nonneg (by norm_num : (0 : ℚ) ≤ 1 / 2)] at h00
  norm_num at h00

/-- C4: under the same library-oracle contracts plus the nonnegativity the
kernels enjoy mathematically (positive transition-kernel entries,
nonnegative augmented-exponential blocks, nonnegative forward, backward and
emission vectors with positive per-step likelihood, generator with
nonnegative off-diagonal and nonpositive diagonal rates), both methods
return TauI entrywise nonnegative and Nij entrywise nonnegative, and both
return Nij equal to zero at every off-diagonal entry where the mask is zero;
the eigen method additionally returns zero at every diagonal entry.  The
claimed diagonal zero FAILS for the expm method (see the counterexample). -/
theorem C4_stats_sign_and_support (M : Model n) (steps : List (Step n))
    (hPt : ∀ st ∈ steps, ∀ k l, 0 < M.Pt st.gap k l)
    (hA : ∀ st ∈ steps, ∀ a b k l, M.expmA st.gap a b k l =
      ∑ p, ∑ q, M.U k p * calculate_Psi_eigen M st.gap p q * M.V p a * M.U b q * M.V q l)
    (hQ0 : ∀ i j, i ≠ j → M.Qstruct i j ≠ 1 → M.Q i j = 0)
    (hdiag : ∀ i, M.Qstruct i i ≠ 1)
    (hQoff : ∀ i j, i ≠ j → 0 ≤ M.Q i j)
    (hQd : ∀ i, M.Q i i ≤ 0)
    (hstep : ∀ st ∈ steps, (∀ i, 0 ≤ st.alpha i) ∧ (∀ i, 0 ≤ st.beta i) ∧
      (∀ i, 0 ≤ st.b i) ∧ 0 < zeta_denom M st.gap st.alpha st.beta st.b)
    (hAnn : ∀ st ∈ steps, ∀ a b k l, 0 ≤ M.expmA st.gap a b k l) :
    (∀ i, 0 ≤ (Expm_TauI_Nij_all_times M steps).1 i)
    ∧ (∀ i j, 0 ≤ (Expm_TauI_Nij_all_times M steps).2 i j)
    ∧ (∀ i, 0 ≤ Eigen_TauI_all_times M steps i)
    ∧ (∀ i j, 0 ≤ Eigen_Nij_all_times M steps i j)
    ∧ (∀ i j, i ≠ j → M.Qstruct i j ≠ 1 →
        (Expm_TauI_Nij_all_times M steps).2 i j = 0 ∧ Eigen_Nij_all_times M steps i j = 0)
    ∧ (∀ i, Eigen_Nij_all_times M steps i i = 0) := by
  have hPtne : ∀ st ∈ steps, ∀ k l, M.Pt st.gap k l ≠ 0 :=
    fun st hst k l => ne_of_gt (hPt st hst k l)
  have htemp : ∀ st ∈ steps, ∀ a b, 0 ≤ tempSum M st a b := by
    intro st hst a b
    obtain ⟨ha, hb, hbs, hden⟩ := hstep st hst
    exact tempSum_nonneg M st a b (hPt st hst)
      (stepZeta_nonneg M st (hPt st hst) ha hb hbs hden) (fun k l => hAnn st hst a b k l)
  have htau : ∀ i, 0 ≤ Expm_TauI_all M steps i := by
    intro i
    exact listsum_nonneg steps _ (fun st hst => htemp st hst i i)
  have hnij : ∀ i j, 0 ≤ Expm_Nij_all M steps i j := by
    intro i j
    unfold Expm_Nij_all
    apply add_nonneg
    · by_cases hij : i = j
      · subst hij
        rw [if_pos rfl]
        refine listsum_nonneg steps _ (fun st hst => ?_)
        exact mul_nonneg (htemp st hst i i) (neg_nonneg.mpr (hQd i))
      · rw [if_neg hij]
    · by_cases hs : M.Qstruct i j = 1
      · by_cases hij : i = j
        · subst hij
          exact absurd hs (hdiag i)
        · rw [if_pos hs]
          refine listsum_nonneg steps _ (fun st hst => ?_)
          exact mul_nonneg (htemp st hst i j) (hQoff i j hij)
      · rw [if_neg hs]
  refine ⟨htau, hnij, ?_, ?_, ?_, fun i => Eigen_Nij_diag_zero M steps i⟩
  · intro i
    rw [← Expm_TauI_eq_Eigen M steps hPtne hA i]
    exact htau i
  · intro i j
    by_cases hij : i = j
    · subst hij
      rw [Eigen_Nij_diag_zero]
    · rw [← Expm_Nij_eq_Eigen_offdiag M steps hPtne hA hQ0 i j hij]
      exact hnij i j
  · intro i j hij hs
    constructor
    · show Expm_Nij_all M steps i j = 0
      unfold Expm_Nij_all
      rw [if_neg hij, if_neg hs, add_zero]
    · refine listsum_zero steps _ (fun st hst => ?_)
      unfold Eigen_Nij_time_interval
      rw [if_neg hij, hQ0 i j hij hs, zero_mul]

/-- Witness for C4 at the concrete two-state instance: the expm method's
sojourn vector is nonnegative at state 0. -/
theorem C4_stats_sign_and_support_witness :
    0 ≤ (Expm_TauI_Nij_all_times M2 [st2]).1 0 :=
  (C4_stats_sign_and_support M2 [st2] M2_hPt_pos M2_hA M2_hQ0 M2_hdiag M2_hQoff M2_hQd
    M2_hstep M2_hAnn).1 0

/-- Counterexample for C4 as stated: the expm method's Nij is NOT zero at
the diagonal entry `(0,0)` of the concrete valid instance — it is `1/2`. -/
theorem C4_expm_diag_nonzero_counterexample :
    (Expm_TauI_Nij_all_times M2 [st2]).2 0 0 ≠ 0 := by
  rw [expm_diag_value]
  norm_num

/-- C5: the Psi matrix built by `calculate_Psi_eigen` substitutes the
limiting form `t * exp(t * D[p])` exactly when `D[p]` and `D[q]` are EXACTLY
equal; for every pair of distinct eigenvalues — even ones that coincide
within any tolerance — it computes the difference quotient, dividing by the
(possibly near-zero) eigenvalue difference.  No tolerance is applied (see
the counterexample for the claim's "within tolerance" reading). -/
theorem C5_psi_exact_equality_only (M : Model n) (t : ℚ) (p q : Fin n) :
    (M.eig M.Q p = M.eig M.Q q →
      calculate_Psi_eigen M t p q = t * M.expf (t * M.eig M.Q p))
    ∧ (M.eig M.Q p ≠ M.eig M.Q q →
      calculate_Psi_eigen M t p q =
        (M.expf (t * M.eig M.Q p) - M.expf (t * M.eig M.Q q)) /
          (M.eig M.Q p - M.eig M.Q q)) := by
  constructor
  · intro h
    unfold calculate_Psi_eigen
    rw [if_pos h]
  · intro h
    unfold calculate_Psi_eigen
    rw [if_neg h]

/-- Witness for C5: on the near-degenerate instance the difference-quotient
branch is taken for the distinct pair `(0,1)`. -/
theorem C5_psi_exact_equality_only_witness :
    calculate_Psi_eigen M5 1 0 1 =
      (M5.expf (1 * M5.eig M5.Q 0) - M5.expf (1 * M5.eig M5.Q 1)) /
        (M5.eig M5.Q 0 - M5.eig M5.Q 1) :=
  (C5_psi_exact_equality_only M5 1 0 1).2 (by norm_num [M5, D5])

/-- Counterexample for C5 as stated: the eigenvalues `0` and `10⁻⁹` of the
instance coincide within the `1e-6` tolerance, yet the computed
`Psi[0,1]` is the difference quotient `1 + 5·10⁻¹⁰`, not the claimed
limiting form `t * exp(t * D[0]) = 1`: the exact `==` of line 298 applies no
tolerance, and the division by the near-zero difference `-10⁻⁹` occurs. -/
theorem C5_tolerance_counterexample :
    |M5.eig M5.Q 0 - M5.eig M5.Q 1| ≤ 1 / 1000000 ∧
    calculate_Psi_eigen M5 1 0 1 ≠ 1 * M5.expf (1 * M5.eig M5.Q 0) := by
  constructor
  · have e : M5.eig M5.Q 0 - M5.eig M5.Q 1 = -(1 / 1000000000) := by
      norm_num [M5, D5]
    rw [e, abs_neg, abs_of_nonneg (by norm_num : (0 : ℚ) ≤ 1 / 1000000000)]
    norm_num
  · norm_num [calculate_Psi_eigen, M5, D5, expf5]

/-- C9: the `Patient` constructor stores `censored = False` regardless of
the value of its `censored` argument. -/
theorem C9_censored_always_false :
    ∀ (e : ℚ) (c : Bool), (Patient.init e c).censored = false :=
  fun _ _ => rfl

/-- C6: the `fast_eigen=False` end-state precomputation does NOT complete
without error: on any model with at least one cached time interval and one
state, `Eigen_all_end_state_conditioned` raises `NameError` at its first
`Eigen_TauI_time_interval_end_state` call, because that function's guard
`if i != j:` (ct_hmm.py line 276) reads a variable `j` that is bound
nowhere.  Evaluated here at the concrete two-state model with time-interval
set `{1}`. -/
theorem C6_end_state_precompute_name_error :
    Eigen_all_end_state_conditioned M2 [1] = Except.error PyErr.nameError := rfl

/-- C3: a NaN produced in the backward recursion or in the updated Q does
NOT raise `NumericalInstabilityError`: first conjunct — a nan in
`get_beta_vector`'s result triggers the interactive `pdb` pause (the pause
flag) and the function still returns; second conjunct — an M-step with
`TauI[i] = 0` and `Nij[i,j] = 0` computes `Q[i,j] = 0/0 = nan`, triggers the
interactive pause, and `update_model_params` still returns a normal result
(no exception); third conjunct — with `TauI[i] = 0` and `Nij[i,j] = 1` the
update computes `Q[i,j] = inf`, no check fires at all (`np.isnan(inf)` is
false), and the update returns normally: the zero expected sojourn time
raises no `DegenerateStateError` either. -/
theorem C3_nan_pauses_not_raises :
    (get_beta_vector idQ idQ COnes 0 bOnes expmOnes betaAfterNan).paused = true
    ∧ (update_model_params Qstruct2 Q2PyF NijZeroM TauIZeroV zeroVec2 zeroVec2 zeroVec2
        zeroVec2 zeroVec2 zeroVec2 false false true).map MRes.paused = Except.ok true
    ∧ (update_model_params Qstruct2 Q2PyF NijOnesM TauIZeroV zeroVec2 zeroVec2 zeroVec2
        zeroVec2 zeroVec2 zeroVec2 false false true).map
        (fun r => (r.paused, r.Q 0 1)) = Except.ok (false, PyF.pinf) := by
  refine ⟨?_, ?_, ?_⟩ <;> decide

/-- Exit soundness of the `run_EM` loop: when the loop returns, the old
log-likelihood is finite and the convergence criterion holds at the exit
point. -/
lemma run_EM_aux_sound {σ : Type} (step : σ → σ) (ll : σ → ℚ) (tol : ℚ) :
    ∀ (fuel : ℕ) (s : σ) (old : Option ℚ) (nw : ℚ) (s2 : σ) (o2 : Option ℚ) (n2 : ℚ),
      run_EM_aux step ll tol fuel s old nw = some (s2, o2, n2) →
      ∃ o, o2 = some o ∧ |o - n2| ≤ tol := by
  intro fuel
  induction fuel with
  | zero =>
    intro s old nw s2 o2 n2 h
    exact absurd h (by simp [run_EM_aux])
  | succ fuel ih =>
    intro s old nw s2 o2 n2 h
    rw [run_EM_aux] at h
    by_cases hc : notConverged tol old nw = true
    · rw [if_pos hc] at h
      exact ih _ _ _ _ _ _ h
    · rw [if_neg hc] at h
      have he := Option.some.inj h
      obtain ⟨he1, he2, he3⟩ : s = s2 ∧ old = o2 ∧ nw = n2 := by
        refine ⟨congrArg Prod.fst he, ?_, ?_⟩
        · exact congrArg (fun x => x.2.1) he
        · exact congrArg (fun x => x.2.2) he
      subst he1
      subst he2
      subst he3
      cases old with
      | none => exact absurd rfl hc
      | some o =>
        refine ⟨o, rfl, ?_⟩
        have : ¬ (|o - nw| > tol) := by
          intro hgt
          exact hc (by simp [notConverged, hgt])
        exact le_of_not_lt this


/-- When every consecutive pair of log-likelihood values stays more than
`tol` apart, the `run_EM` loop never exits: from any point on its trajectory
it consumes all fuel. -/
lemma run_EM_aux_diverges {σ : Type} (step : σ → σ) (ll : σ → ℚ) (tol : ℚ) (s0 : σ)
    (H : ∀ k : ℕ, |wseq step ll s0 k - wseq step ll s0 (k + 1)| > tol) :
    ∀ (fuel m : ℕ),
      run_EM_aux step ll tol fuel (step^[m + 1] s0) (some (wseq step ll s0 m))
        (wseq step ll s0 (m + 1)) = none := by
  intro fuel
  induction fuel with
  | zero => intro m; rfl
  | succ fuel ih =>
    intro m
    rw [run_EM_aux]
    have hc : notConverged tol (some (wseq step ll s0 m)) (wseq step ll s0 (m + 1)) = true := by
      simp only [notConverged, decide_eq_true_eq]
      exact H m
    rw [if_pos hc]
    have h1 : step (step^[m + 1] s0) = step^[m + 2] s0 :=
      (Function.iterate_succ_apply' step (m + 1) s0).symm
    rw [h1]
    have h2 : ll (step^[m + 2] s0) = wseq step ll s0 (m + 2) := rfl
    rw [h2]
    exact ih (m + 1)

/-- The full loop diverges from the initial state under the same
hypothesis. -/
lemma run_EM_diverges {σ : Type} (step : σ → σ) (ll : σ → ℚ) (tol : ℚ) (s0 : σ)
    (H : ∀ k : ℕ, |wseq step ll s0 k - wseq step ll s0 (k + 1)| > tol) (fuel : ℕ) :
    run_EM step ll tol fuel s0 = none := by
  cases fuel with
  | zero => rfl
  | succ fuel =>
    unfold run_EM
    rw [run_EM_aux]
    rw [if_pos (show notConverged tol none 0 = true from rfl)]
    exact run_EM_aux_diverges step ll tol s0 H fuel 0

/-- Helper: iterating the successor from zero counts the iterations. -/
lemma succ_iter_zero : ∀ m : ℕ, Nat.succ^[m] 0 = m := by
  intro m
  induction m with
  | zero => rfl
  | succ m ih => rw [Function.iterate_succ_apply', ih]

/-- C2: what the training entrypoint actually guarantees.  The `run_EM`
loop stops as soon as the absolute difference between the previous and the
current log-likelihood is at most the tolerance, and whenever it stops the
criterion holds at the exit point; but the source has NO iteration cap and
NO ConvergenceNotReachedError: when consecutive log-likelihood values always
stay more than `tol` apart, the loop never terminates (it exhausts any
fuel).  The claimed cap-and-report behaviour fails — see the counterexample,
where the loop is still running after 51 iterations on a diverging
trace. -/
theorem C2_run_EM_stop_behavior {σ : Type} (step : σ → σ) (ll : σ → ℚ) (tol : ℚ)
    (fuel : ℕ) (s0 : σ) :
    (∀ s2 o2 n2, run_EM step ll tol fuel s0 = some (s2, o2, n2) →
      ∃ o, o2 = some o ∧ |o - n2| ≤ tol)
    ∧ ((∀ k : ℕ, |wseq step ll s0 k - wseq step ll s0 (k + 1)| > tol) →
      run_EM step ll tol fuel s0 = none) :=
  ⟨fun s2 o2 n2 h => run_EM_aux_sound step ll tol fuel s0 none 0 s2 o2 n2 h,
   fun H => run_EM_diverges step ll tol s0 H fuel⟩

/-- Witness for C2: on a constant log-likelihood trace the loop exits, and
the exit satisfies the convergence criterion. -/
theorem C2_run_EM_stop_behavior_witness :
    ∃ o, some (0 : ℚ) = some o ∧ |o - 0| ≤ 1 :=
  (C2_run_EM_stop_behavior Nat.succ llConst 1 5 0).1 1 (some 0) 0
    (by norm_num [run_EM, run_EM_aux, notConverged, llConst])

/-- Counterexample for C2 as stated: with tolerance `1/2` and a
log-likelihood trace that grows by `1` per iteration, the loop is still
running after 51 iterations — beyond the spec's 50-iteration scenario cap —
and no ConvergenceNotReachedError value exists anywhere in the embedded
code's result type: the source `while` loop simply never stops. -/
theorem C2_no_iteration_cap_counterexample :
    run_EM Nat.succ llDiverge (1 / 2) 51 0 = none := by
  apply run_EM_diverges
  intro k
  have hw : ∀ m : ℕ, wseq Nat.succ llDiverge 0 m = (m : ℚ) := by
    intro m
    cases m with
    | zero => simp [wseq]
    | succ m => simp [wseq, llDiverge, succ_iter_zero]
  rw [hw k, hw (k + 1)]
  have hd : (k : ℚ) - ((k + 1 : ℕ) : ℚ) = -1 := by push_cast; ring
  rw [hd, abs_neg, abs_one]
  norm_num

/-- A monadic fold whose step never fails computes the pure fold. -/
lemma foldlM_of_pure {α β : Type} (f : β → α → Except PyErr β) (g : β → α → β)
    (hf : ∀ st x, f st x = Except.ok (g st x)) :
    ∀ (l : List α) (st : β), l.foldlM f st = Except.ok (l.foldl g st) := by
  intro l
  induction l with
  | nil => intro st; rfl
  | cons x xs ih =>
    intro st
    rw [List.foldlM_cons, hf st x]
    exact ih (g st x)

/-- With array accumulators the Q-loop step never fails. -/
lemma qUpdateStep_mat (Qstruct : Mat n) (N : Mat n) (T : Vec n) (bound : Bool) :
    ∀ st ij, qUpdateStep Qstruct (IntOrMat.mat N) (IntOrVec.vec T) bound st ij =
      Except.ok (qUpdateStepPure Qstruct N T bound st ij) := by
  intro st ij
  unfold qUpdateStep qUpdateStepPure
  by_cases h : Qstruct ij.1 ij.2 = 1
  · rw [if_pos h, if_pos h]
    rfl
  · rw [if_neg h, if_neg h]

/-- With array accumulators the M-step returns its pure result. -/
lemma update_model_params_mat (Qstruct : Mat n) (Q0 : Fin n → Fin n → PyF)
    (N : Mat n) (T : Vec n) (m1 m2 p1 p2 s1 s2 : Vec n) (us um bnd : Bool) :
    update_model_params Qstruct Q0 (IntOrMat.mat N) (IntOrVec.vec T)
        m1 m2 p1 p2 s1 s2 us um bnd =
      Except.ok (update_pure Qstruct Q0 N T m1 m2 p1 p2 s1 s2 us um bnd) := by
  unfold update_model_params update_pure
  rw [foldlM_of_pure _ _ (qUpdateStep_mat Qstruct N T bnd) (idxPairs n) (Q0, false)]
  rfl

/-- Every index pair is visited by the Q loop. -/
lemma mem_idxPairs (i j : Fin n) : (i, j) ∈ idxPairs n := by
  unfold idxPairs
  simp only [List.mem_flatMap, List.mem_map]
  exact ⟨i, List.mem_finRange i, j, List.mem_finRange j, rfl⟩

/-- When the `Nij` accumulator is still the Python integer `0`, the Q loop
raises `TypeError` at the first mask-allowed pair it visits. -/
lemma qUpdate_int_foldlM_error (Qstruct : Mat n) (z : ℤ) (TauI : IntOrVec n) (bnd : Bool) :
    ∀ (l : List (Fin n × Fin n)) (st), (∃ ij ∈ l, Qstruct ij.1 ij.2 = 1) →
      l.foldlM (qUpdateStep Qstruct (IntOrMat.intv z) TauI bnd) st =
        Except.error PyErr.typeError := by
  intro l
  induction l with
  | nil =>
    intro st h
    simp at h
  | cons x xs ih =>
    intro st hex
    rw [List.foldlM_cons]
    by_cases hx : Qstruct x.1 x.2 = 1
    · have he : qUpdateStep Qstruct (IntOrMat.intv z) TauI bnd st x =
          Except.error PyErr.typeError := by
        unfold qUpdateStep
        rw [if_pos hx]
        rfl
      rw [he]
      rfl
    · have hok : qUpdateStep Qstruct (IntOrMat.intv z) TauI bnd st x = Except.ok st := by
        unfold qUpdateStep
        rw [if_neg hx]
      rw [hok]
      have hex2 : ∃ ij ∈ xs, Qstruct ij.1 ij.2 = 1 := by
        rcases hex with ⟨ij, hmem, hij⟩
        rcases List.mem_cons.mp hmem with he2 | hm
        · exact absurd hij (he2 ▸ hx)
        · exact ⟨ij, hm, hij⟩
      exact ih st hex2

/-- With integer accumulators and any mask-allowed entry, the M-step fails
with `TypeError`. -/
lemma update_model_params_int_error (Qstruct : Mat n) (Q0 : Fin n → Fin n → PyF)
    (z : ℤ) (TauI : IntOrVec n) (m1 m2 p1 p2 s1 s2 : Vec n) (us um bnd : Bool)
    (i j : Fin n) (hij : Qstruct i j = 1) :
    update_model_params Qstruct Q0 (IntOrMat.intv z) TauI m1 m2 p1 p2 s1 s2 us um bnd =
      Except.error PyErr.typeError := by
  unfold update_model_params
  rw [qUpdate_int_foldlM_error Qstruct z TauI bnd (idxPairs n) (Q0, false)
    ⟨(i, j), mem_idxPairs i j, hij⟩]
  rfl

/-- Construction succeeds exactly for the three recognised topology names
(given a nonempty emission list); the method string plays no role. -/
lemma CT_HMM_init_isOk_iff (randQ : ℕ → ℕ → ℚ) (Qopt : Option (ℕ → ℕ → ℚ))
    (ls_mu : List (List ℚ)) (struct method : String) (bnd : Bool)
    (h : ls_mu ≠ []) :
    (CT_HMM_init randQ Qopt ls_mu struct method bnd).isOk = true ↔
      (struct = structFc ∨ struct = structForwardStep ∨ struct = structForwardAny) := by
  cases ls_mu with
  | nil => exact absurd rfl h
  | cons a as =>
    simp only [CT_HMM_init, num_state_of, create_Q_struct, List.map_cons]
    by_cases h1 : struct = "fc"
    · simp [h1, Except.isOk, Except.toBool, bind, Except.bind, structFc, structForwardStep,
        structForwardAny]
    · by_cases h2 : struct = "forward_step"
      · simp [h1, h2, Except.isOk, Except.toBool, bind, Except.bind, structFc,
          structForwardStep, structForwardAny]
      · by_cases h3 : struct = "forward_any"
        · simp [h1, h2, h3, Except.isOk, Except.toBool, bind, Except.bind, structFc,
            structForwardStep, structForwardAny]
        · simp [h1, h2, h3, Except.isOk, Except.toBool, bind, Except.bind, structFc,
            structForwardStep, structForwardAny]

/-- One patient step never touches the emission accumulators (the
accumulation lines of the source are commented out). -/
lemma EMPatientStep_preserves_mu (M : Model n) (method : String) (acc : EStepOut n)
    (p : PatientData n) :
    (EMPatientStep M method acc p).mu_num = acc.mu_num ∧
    (EMPatientStep M method acc p).mu_den = acc.mu_den ∧
    (EMPatientStep M method acc p).sigma_num = acc.sigma_num ∧
    (EMPatientStep M method acc p).sigma_den = acc.sigma_den := by
  by_cases h1 : method = methodEigen
  · simp [EMPatientStep, h1, methodEigen, methodExpm]
  · by_cases h2 : method = methodExpm
    · simp [EMPatientStep, h1, h2, methodEigen, methodExpm]
    · simp [EMPatientStep, h1, h2]

/-- The whole E-step accumulation leaves the emission accumulators at their
initial value. -/
lemma EM_accumulate_preserves_mu (M : Model n) (method : String) :
    ∀ (patients : List (PatientData n)) (acc : EStepOut n),
      (patients.foldl (EMPatientStep M method) acc).mu_num = acc.mu_num ∧
      (patients.foldl (EMPatientStep M method) acc).mu_den = acc.mu_den ∧
      (patients.foldl (EMPatientStep M method) acc).sigma_num = acc.sigma_num ∧
      (patients.foldl (EMPatientStep M method) acc).sigma_den = acc.sigma_den := by
  intro patients
  induction patients with
  | nil => intro acc; exact ⟨rfl, rfl, rfl, rfl⟩
  | cons p ps ih =>
    intro acc
    obtain ⟨e1, e2, e3, e4⟩ := EMPatientStep_preserves_mu M method acc p
    obtain ⟨i1, i2, i3, i4⟩ := ih (EMPatientStep M method acc p)
    exact ⟨i1.trans e1, i2.trans e2, i3.trans e3, i4.trans e4⟩

/-- Adding a matrix to either accumulator variant yields a matrix. -/
lemma addIM_mat (x : IntOrMat n) (Mx : Mat n) : ∃ N, addIM x Mx = IntOrMat.mat N := by
  cases x with
  | intv z => exact ⟨_, rfl⟩
  | mat M0 => exact ⟨_, rfl⟩

/-- Adding a vector to either accumulator variant yields a vector. -/
lemma addIV_vec (x : IntOrVec n) (v : Vec n) : ∃ T, addIV x v = IntOrVec.vec T := by
  cases x with
  | intv z => exact ⟨_, rfl⟩
  | vec v0 => exact ⟨_, rfl⟩

/-- With a recognised method, one patient step turns the statistics
accumulators into arrays. -/
lemma EMPatientStep_known_mat (M : Model n) (method : String)
    (hm : method = methodEigen ∨ method = methodExpm) (acc : EStepOut n)
    (p : PatientData n) :
    (∃ N, (EMPatientStep M method acc p).Nij = IntOrMat.mat N) ∧
    (∃ T, (EMPatientStep M method acc p).TauI = IntOrVec.vec T) := by
  by_cases h1 : method = methodEigen
  · constructor
    · obtain ⟨N, hN⟩ := addIM_mat acc.Nij (Eigen_Nij_all_times M p.steps)
      exact ⟨N, by simp [EMPatientStep, h1, hN]⟩
    · obtain ⟨T, hT⟩ := addIV_vec acc.TauI (Eigen_TauI_all_times M p.steps)
      exact ⟨T, by simp [EMPatientStep, h1, hT]⟩
  · have h2 : method = methodExpm := hm.resolve_left h1
    constructor
    · obtain ⟨N, hN⟩ := addIM_mat acc.Nij (Expm_TauI_Nij_all_times M p.steps).2
      exact ⟨N, by simp [EMPatientStep, h1, h2, hN, methodEigen, methodExpm]⟩
    · obtain ⟨T, hT⟩ := addIV_vec acc.TauI (Expm_TauI_Nij_all_times M p.steps).1
      exact ⟨T, by simp [EMPatientStep, h1, h2, hT, methodEigen, methodExpm]⟩

/-- The array shape of the accumulators survives the rest of the fold. -/
lemma EM_fold_keeps_mat (M : Model n) (method : String)
    (hm : method = methodEigen ∨ method = methodExpm) :
    ∀ (ps : List (PatientData n)) (acc : EStepOut n),
      (∃ N, acc.Nij = IntOrMat.mat N) → (∃ T, acc.TauI = IntOrVec.vec T) →
      (∃ N, (ps.foldl (EMPatientStep M method) acc).Nij = IntOrMat.mat N) ∧
      (∃ T, (ps.foldl (EMPatientStep M method) acc).TauI = IntOrVec.vec T) := by
  intro ps
  induction ps with
  | nil => intro acc hN hT; exact ⟨hN, hT⟩
  | cons p rest ih =>
    intro acc hN hT
    obtain ⟨hN2, hT2⟩ := EMPatientStep_known_mat M method hm acc p
    exact ih (EMPatientStep M method acc p) hN2 hT2

/-- After at least one patient with a recognised method, the accumulated
statistics are arrays. -/
lemma EM_accumulate_known_mat (M : Model n) (method : String)
    (hm : method = methodEigen ∨ method = methodExpm)
    (patients : List (PatientData n)) (hp : patients ≠ []) :
    (∃ N, (EM_accumulate M method patients).Nij = IntOrMat.mat N) ∧
    (∃ T, (EM_accumulate M method patients).TauI = IntOrVec.vec T) := by
  cases patients with
  | nil => exact absurd rfl hp
  | cons p ps =>
    obtain ⟨hN, hT⟩ := EMPatientStep_known_mat M method hm EMacc0 p
    exact EM_fold_keeps_mat M method hm ps (EMPatientStep M method EMacc0 p) hN hT

/-- The quotient of the untouched zero emission accumulators. -/
lemma pdivQ_zero_zero : pdivQ 0 0 = PyF.nan := by
  simp [pdivQ]

/-- C7: constructing the learner with a topology name outside the three
recognised names (`fc`, `forward_step`, `forward_any`) raises (the
`Exception` of `create_Q_struct`, the spec's StructuralConfigError), and
construction with any recognised name succeeds, for every nonempty
emission-parameter list and any method string. -/
theorem C7_topology_validation (randQ : ℕ → ℕ → ℚ) (Qopt : Option (ℕ → ℕ → ℚ))
    (ls_mu : List (List ℚ)) (struct method : String) (bnd : Bool)
    (h : ls_mu ≠ []) :
    (CT_HMM_init randQ Qopt ls_mu struct method bnd).isOk = true ↔
      (struct = structFc ∨ struct = structForwardStep ∨ struct = structForwardAny) :=
  CT_HMM_init_isOk_iff randQ Qopt ls_mu struct method bnd h

/-- Witness for C7: concrete construction with the `fc` topology
succeeds. -/
theorem C7_topology_validation_witness :
    (CT_HMM_init randOracle none lsMu2 structFc methodEigen true).isOk = true :=
  (C7_topology_validation randOracle none lsMu2 structFc methodEigen true
    (by decide)).mpr (Or.inl rfl)

/-- C8: with mean re-estimation enabled (`update_mu = True`, the default of
`run_EM`), the emission accumulators `mu_numerator`, `mu_denominator` (and
the sigma accumulators) remain zero throughout the entire E-step over all
sequences — the accumulation lines are commented out in the source — so
every updated emission mean is the unguarded quotient `0/0 = nan`; enabling
`update_sigma` produces the same `0/0` variances.  Stated for the recognised
statistics methods, whose accumulated statistics are arrays, so that the
update step actually reaches the emission-mean loop. -/
theorem C8_mu_accumulators_zero (M : Model n) (tis : List ℚ) (method : String)
    (hm : method = methodEigen ∨ method = methodExpm)
    (patients : List (PatientData n)) (hp : patients ≠ []) (us bnd : Bool) :
    (∀ i, (EM_accumulate M method patients).mu_num i = 0
      ∧ (EM_accumulate M method patients).mu_den i = 0
      ∧ (EM_accumulate M method patients).sigma_num i = 0
      ∧ (EM_accumulate M method patients).sigma_den i = 0)
    ∧ (EM_step M tis method true us true bnd patients).map (fun rp => rp.1.ls_mu)
        = Except.ok (List.replicate n PyF.nan)
    ∧ (us = true →
        (EM_step M tis method true us true bnd patients).map (fun rp => rp.1.ls_sigma)
          = Except.ok (List.replicate n PyF.nan)) := by
  obtain ⟨hmu1, hmu2, hs1, hs2⟩ := EM_accumulate_preserves_mu M method patients EMacc0
  obtain ⟨⟨N, hN⟩, ⟨T, hT⟩⟩ := EM_accumulate_known_mat M method hm patients hp
  have hstep : ∀ um : Bool, EM_step M tis method true us um bnd patients =
      Except.ok (update_pure M.Qstruct (fun i j => PyF.num (M.Q i j)) N T
        (EM_accumulate M method patients).mu_num (EM_accumulate M method patients).mu_den
        (EM_accumulate M method patients).pi0_num (EM_accumulate M method patients).pi0_den
        (EM_accumulate M method patients).sigma_num
        (EM_accumulate M method patients).sigma_den
        us um bnd, EM_accumulate M method patients) := by
    intro um
    simp only [EM_step]
    rw [if_neg (by simp : ¬(true = false ∧ method = methodEigen))]
    rw [hN, hT, update_model_params_mat]
    rfl
  refine ⟨?_, ?_, ?_⟩
  · intro i
    exact ⟨congrFun hmu1 i, congrFun hmu2 i, congrFun hs1 i, congrFun hs2 i⟩
  · rw [hstep true]
    simp only [Except.map, update_pure, EM_accumulate, hmu1, hmu2]
    simp [pdivQ_zero_zero, List.map_const, List.length_finRange, EMacc0]
  · intro hus
    subst hus
    rw [hstep true]
    simp only [Except.map, update_pure, EM_accumulate, hs1, hs2]
    simp [pdivQ_zero_zero, List.map_const, List.length_finRange, EMacc0]

/-- Witness for C8: the concrete EM step on the two-state instance returns
nan means. -/
theorem C8_mu_accumulators_zero_witness :
    (EM_step M2 [1] methodEigen true false true true [pd2]).map (fun rp => rp.1.ls_mu)
      = Except.ok (List.replicate 2 PyF.nan) :=
  (C8_mu_accumulators_zero M2 [1] methodEigen (Or.inl rfl) [pd2]
    (by intro h; exact List.noConfusion h) false true).2.1

/-- C10: a statistics-method string other than `eigen` and `expm` passes
construction without any validation; an EM step with such a method matches
neither dispatch branch, so `Nij` and `TauI` remain the Python integer `0`
they were initialised to, and the subsequent `update_model_params` fails
with `TypeError` at the first mask-allowed entry it subscripts — no
configuration error is ever raised at construction time. -/
theorem C10_unknown_method_behavior (M : Model n) (patients : List (PatientData n))
    (method : String) (hm1 : method ≠ methodEigen) (hm2 : method ≠ methodExpm)
    (randQ : ℕ → ℕ → ℚ) (Qopt : Option (ℕ → ℕ → ℚ)) (ls_mu : List (List ℚ))
    (hls : ls_mu ≠ []) (bnd2 : Bool)
    (Q0 : Fin n → Fin n → PyF) (m1 m2 p1 p2 s1 s2 : Vec n) (us um bnd : Bool)
    (i j : Fin n) (hij : M.Qstruct i j = 1) :
    (CT_HMM_init randQ Qopt ls_mu structFc method bnd2).isOk = true
    ∧ (EM_accumulate M method patients).Nij = IntOrMat.intv 0
    ∧ (EM_accumulate M method patients).TauI = IntOrVec.intv 0
    ∧ update_model_params M.Qstruct Q0 (EM_accumulate M method patients).Nij
        (EM_accumulate M method patients).TauI m1 m2 p1 p2 s1 s2 us um bnd
        = Except.error PyErr.typeError := by
  have hacc : ∀ (ps : List (PatientData n)) (acc : EStepOut n),
      (ps.foldl (EMPatientStep M method) acc).Nij = acc.Nij ∧
      (ps.foldl (EMPatientStep M method) acc).TauI = acc.TauI := by
    intro ps
    induction ps with
    | nil => intro acc; exact ⟨rfl, rfl⟩
    | cons p rest ih =>
      intro acc
      have hone : (EMPatientStep M method acc p).Nij = acc.Nij ∧
          (EMPatientStep M method acc p).TauI = acc.TauI := by
        constructor <;> simp [EMPatientStep, hm1, hm2]
      obtain ⟨i1, i2⟩ := ih (EMPatientStep M method acc p)
      exact ⟨i1.trans hone.1, i2.trans hone.2⟩
  obtain ⟨hNij, hTau⟩ := hacc patients EMacc0
  have hNij2 : (EM_accumulate M method patients).Nij = IntOrMat.intv 0 := hNij
  have hTau2 : (EM_accumulate M method patients).TauI = IntOrVec.intv 0 := hTau
  refine ⟨?_, hNij2, hTau2, ?_⟩
  · exact (CT_HMM_init_isOk_iff randQ Qopt ls_mu structFc method bnd2 hls).mpr (Or.inl rfl)
  · rw [hNij2, hTau2]
    exact update_model_params_int_error M.Qstruct Q0 0 (IntOrVec.intv 0)
      m1 m2 p1 p2 s1 s2 us um bnd i j hij

/-- Witness for C10: the concrete update on the integer accumulators left by
an unrecognised method fails with `TypeError`. -/
theorem C10_unknown_method_behavior_witness :
    update_model_params M2.Qstruct Q2PyF (EM_accumulate M2 methodPower [pd2]).Nij
      (EM_accumulate M2 methodPower [pd2]).TauI zeroVec2 zeroVec2 zeroVec2 zeroVec2
      zeroVec2 zeroVec2 false true true = Except.error PyErr.typeError :=
  (C10_unknown_method_behavior M2 [pd2] methodPower (by decide) (by decide) randOracle
    none lsMu2 (by intro h; exact List.noConfusion h) true Q2PyF zeroVec2 zeroVec2
    zeroVec2 zeroVec2 zeroVec2 zeroVec2 false true true 0 1 (by decide)).2.2.2

end CtHmm
